import Mathlib

/-!
# Verification of the micrograd scalar autograd engine

Shallow embedding of `micrograd/engine.py` (class `Value`) and the parts of
`micrograd/nn.py` (`Neuron.__call__`, `Layer.__call__`) needed by the claims.

Modelling choices:
* A `Value` object is a `Node` stored in a `Store` (a list of nodes); object
  identity is the index into the store.  Constructing an operation appends a
  fresh node, exactly as Python allocates a new `Value`.
* `data`/`grad` are Python floats; the claims only exercise exact (small
  rational) arithmetic, so they are embedded as `ℚ`.  Exponents of `**` are
  the numeric literals used by the code (`3`, `-1`, ...), embedded as `ℤ`.
  Python raises `ZeroDivisionError` when a zero base is raised to a negative
  power; `pyPow`/`powFull`/`truedivFull`/`rtruedivFull`/`backStepFull`/
  `backwardFull` model that failure, and the total builders (`powNum`,
  `truedivv`, `rtruedivv`, `backStep`, `backward`) are their restrictions to
  the error-free region, used by the claims that never touch it.
* `_prev` is a Python `set` built from the ordered operand tuple; the only
  consumer of `_prev` is the depth-first `build_topo`, whose visited check
  makes iterating the ordered tuple observationally equal to iterating the
  deduplicated set, so `prev` is kept as the ordered operand list.  The
  `_backward` closure captures the operands and (for `**`) the exponent; this
  environment is embedded in `Op` and `prev`.
-/

/-- The operator tag of a node (`_op` plus the closure environment of
`_backward`): leaf/constant, `+`, `*`, `**k`, `ReLU`. -/
inductive Op
  | leaf
  | add
  | mul
  | pow (k : ℤ)
  | relu
deriving Repr, DecidableEq

/-- One `Value` object: `self.data`, `self.grad`, `self._prev` (operand ids in
construction order) and the operator tag. -/
structure Node where
  data : ℚ
  grad : ℚ
  prev : List Nat
  op : Op
deriving Repr, DecidableEq

/-- The heap of `Value` objects; a node id is an index into the list. -/
abbrev Store := List Node

/-- Default node used by total lookup outside the allocated range (never
reached on ids produced by the builders). -/
def Node.default : Node := ⟨0, 0, [], Op.leaf⟩

/-- Read the node at id `i`. -/
def lookup (s : Store) (i : Nat) : Node := s.getD i Node.default

/-- Allocate a fresh node (`Value(data, _children, _op)`): `grad` starts at 0,
the default `_backward` of a leaf is a no-op. -/
def mkValue (s : Store) (d : ℚ) (prev : List Nat) (op : Op) : Store × Nat :=
  (s ++ [⟨d, 0, prev, op⟩], s.length)

/-- The `other` argument of a binary operator: an existing `Value` node or a
raw numeric literal. -/
inductive Operand
  | node (i : Nat)
  | const (x : ℚ)

/-- `other if isinstance(other, Value) else Value(other)`: auto-wrap a raw
number into a fresh leaf. -/
def coerceOperand (s : Store) : Operand → Store × Nat
  | Operand.node i => (s, i)
  | Operand.const x => mkValue s x [] Op.leaf

/-- `Value.__add__`: wrap `other` if numeric, allocate
`Value(self.data + other.data, (self, other), '+')`. -/
def addv (s : Store) (a : Nat) (o : Operand) : Store × Nat :=
  let sb := coerceOperand s o
  mkValue sb.1 ((lookup sb.1 a).data + (lookup sb.1 sb.2).data) [a, sb.2] Op.add

/-- `Value.__mul__`: wrap `other` if numeric, allocate
`Value(self.data * other.data, (self, other), '*')`. -/
def mulv (s : Store) (a : Nat) (o : Operand) : Store × Nat :=
  let sb := coerceOperand s o
  mkValue sb.1 ((lookup sb.1 a).data * (lookup sb.1 sb.2).data) [a, sb.2] Op.mul

/-- The argument passed to `Value.__pow__`: a plain numeric literal, another
`Value` node, or some other non-numeric object. -/
inductive PowArg
  | num (k : ℤ)
  | node (i : Nat)
  | nonNumeric

/-- The success path of `Value.__pow__` once the `isinstance` assert has
passed: `Value(self.data**other, (self,), ...)`. -/
def powNum (s : Store) (a : Nat) (k : ℤ) : Store × Nat :=
  mkValue s ((lookup s a).data ^ k) [a] (Op.pow k)

/-- `Value.relu`: `Value(0 if self.data < 0 else self.data, (self,), 'ReLU')`. -/
def reluv (s : Store) (a : Nat) : Store × Nat :=
  mkValue s (if (lookup s a).data < 0 then 0 else (lookup s a).data) [a] Op.relu

/-- `Value.__neg__`: `self * -1` (the literal `-1` is auto-wrapped). -/
def negv (s : Store) (a : Nat) : Store × Nat :=
  mulv s a (Operand.const (-1))

/-- `Value.__sub__`: `self + (-other)`.  For a numeric `other` Python negates
the raw number before the add wraps it; for a `Value` it builds `__neg__`
first. -/
def subv (s : Store) (a : Nat) : Operand → Store × Nat
  | Operand.const x => addv s a (Operand.const (-x))
  | Operand.node b =>
      let sn := negv s b
      addv sn.1 a (Operand.node sn.2)

/-- `Value.__radd__`: `self + other` (`other` is a raw number). -/
def raddv (s : Store) (a : Nat) (x : ℚ) : Store × Nat :=
  addv s a (Operand.const x)

/-- `Value.__rsub__`: `other + (-self)`; the number + Value dispatches to
`(-self).__radd__(other)`, i.e. `(-self) + other`. -/
def rsubv (s : Store) (a : Nat) (x : ℚ) : Store × Nat :=
  let sn := negv s a
  addv sn.1 sn.2 (Operand.const x)

/-- `Value.__rmul__`: `self * other` (`other` is a raw number). -/
def rmulv (s : Store) (a : Nat) (x : ℚ) : Store × Nat :=
  mulv s a (Operand.const x)

/-- `Value.__truediv__`: `self * other**-1`.  For a numeric `other` Python
computes the reciprocal number first and the mul wraps it; for a `Value` it
builds the `**-1` node. -/
def truedivv (s : Store) (a : Nat) : Operand → Store × Nat
  | Operand.const x => mulv s a (Operand.const x⁻¹)
  | Operand.node b =>
      let sp := powNum s b (-1)
      mulv sp.1 a (Operand.node sp.2)

/-- `Value.__rtruediv__`: `other * self**-1`; the number * Value dispatches to
`(self**-1).__rmul__(other)`, i.e. `(self**-1) * other`. -/
def rtruedivv (s : Store) (a : Nat) (x : ℚ) : Store × Nat :=
  let sp := powNum s a (-1)
  mulv sp.1 sp.2 (Operand.const x)

/-- `nd.grad += dg` at id `i` (no-op outside the allocated range). -/
def addGrad (s : Store) (i : Nat) (dg : ℚ) : Store :=
  match s.get? i with
  | some nd => s.set i { nd with grad := nd.grad + dg }
  | none => s

/-- `nd.grad = g` at id `i`. -/
def setGrad (s : Store) (i : Nat) (g : ℚ) : Store :=
  match s.get? i with
  | some nd => s.set i { nd with grad := g }
  | none => s

/-- Invoke `v._backward()`: the local chain-rule step installed at
construction.  The sequential `+=` updates re-read the store exactly as the
Python closures re-read the captured objects. -/
def backStep (s : Store) (v : Nat) : Store :=
  match (lookup s v).op, (lookup s v).prev with
  | Op.add, [a, b] =>
      let s1 := addGrad s a (lookup s v).grad
      addGrad s1 b (lookup s1 v).grad
  | Op.mul, [a, b] =>
      let s1 := addGrad s a ((lookup s b).data * (lookup s v).grad)
      addGrad s1 b ((lookup s1 a).data * (lookup s1 v).grad)
  | Op.pow k, [a] =>
      addGrad s a ((k : ℚ) * (lookup s a).data ^ (k - 1) * (lookup s v).grad)
  | Op.relu, [a] =>
      addGrad s a ((if (lookup s v).data > 0 then 1 else 0) * (lookup s v).grad)
  | _, _ => s

/-- `build_topo`, fuel-indexed: depth-first traversal threading the state
`(visited, topo)`; a node is marked visited on entry, its operands are
traversed, and it is appended to `topo` on exit.  The graph functional `g`
gives each node its operand list. -/
def dfs (g : Nat → List Nat) : Nat → Nat → List Nat × List Nat → List Nat × List Nat
  | 0, _, st => st
  | fuel + 1, v, st =>
      if v ∈ st.1 then st
      else
        let st1 := (g v).foldl (fun t c => dfs g fuel c t) (v :: st.1, st.2)
        (st1.1, st1.2 ++ [v])

/-- The operand list of node `v` in store `s` (the graph functional that
`build_topo` traverses). -/
def children (s : Store) (v : Nat) : List Nat := (lookup s v).prev

/-- The topological order `build_topo(self)` computes inside
`Value.backward`; `s.length` fuel suffices because operands always have
smaller ids than the nodes built from them. -/
def buildTopo (s : Store) (root : Nat) : List Nat :=
  (dfs (children s) s.length root ([], [])).2

/-- `Value.backward`: build the topological order, seed `self.grad = 1`,
then run `v._backward()` over the order in reverse. -/
def backward (s : Store) (root : Nat) : Store :=
  let topo := buildTopo s root
  let s1 := setGrad s root 1
  topo.reverse.foldl backStep s1

/-! ### Store helper lemmas -/

theorem lookup_append_left (s t : Store) (i : Nat) (hi : i < s.length) :
    lookup (s ++ t) i = lookup s i := by
  simp [lookup, List.getD_eq_getElem?_getD, List.getElem?_append_left hi]

theorem addGrad_out_of_range (s : Store) (i : Nat) (dg : ℚ) (hi : s.length ≤ i) :
    addGrad s i dg = s := by
  unfold addGrad
  have h : s.get? i = none := by
    rw [List.get?_eq_getElem?, List.getElem?_eq_none_iff]
    exact hi
  rw [h]

theorem length_addGrad (s : Store) (i : Nat) (dg : ℚ) :
    (addGrad s i dg).length = s.length := by
  unfold addGrad
  cases h : s.get? i <;> simp

theorem lookup_addGrad_ne (s : Store) (j i : Nat) (dg : ℚ) (h : j ≠ i) :
    lookup (addGrad s j dg) i = lookup s i := by
  unfold addGrad
  cases hj : s.get? j with
  | none => rfl
  | some nd => simp [lookup, List.getD_eq_getElem?_getD, List.getElem?_set_ne h]

theorem lookup_eq_of_get? (s : Store) (i : Nat) (nd : Node) (h : s.get? i = some nd) :
    lookup s i = nd := by
  rw [List.get?_eq_getElem?] at h
  simp [lookup, List.getD_eq_getElem?_getD, h]

theorem lookup_addGrad_self (s : Store) (i : Nat) (dg : ℚ) (hi : i < s.length) :
    lookup (addGrad s i dg) i =
      { lookup s i with grad := (lookup s i).grad + dg } := by
  unfold addGrad
  cases hj : s.get? i with
  | none =>
      rw [List.get?_eq_getElem?, List.getElem?_eq_none_iff] at hj
      omega
  | some nd =>
      rw [lookup_eq_of_get? s i nd hj]
      exact lookup_eq_of_get? _ i _ (by
        rw [List.get?_eq_getElem?]
        exact List.getElem?_set_eq_of_lt _ hi)

theorem data_addGrad (s : Store) (j i : Nat) (dg : ℚ) :
    (lookup (addGrad s j dg) i).data = (lookup s i).data := by
  by_cases h : j = i
  · subst h
    by_cases hl : j < s.length
    · rw [lookup_addGrad_self s j dg hl]
    · rw [addGrad_out_of_range s j dg (by omega)]
  · rw [lookup_addGrad_ne s j i dg h]

/-! ### Local backward rules (single `_backward` invocations) -/

theorem backStep_mul (s : Store) (v a b : Nat)
    (hop : (lookup s v).op = Op.mul) (hprev : (lookup s v).prev = [a, b])
    (hab : a ≠ b) (hav : a ≠ v) (ha : a < s.length) (hb : b < s.length) :
    (lookup (backStep s v) a).grad =
      (lookup s a).grad + (lookup s b).data * (lookup s v).grad ∧
    (lookup (backStep s v) b).grad =
      (lookup s b).grad + (lookup s a).data * (lookup s v).grad := by
  unfold backStep
  rw [hop, hprev]
  constructor
  · rw [lookup_addGrad_ne _ _ _ _ (Ne.symm hab), lookup_addGrad_self s a _ ha]
  · rw [lookup_addGrad_self _ b _ (by rw [length_addGrad]; exact hb)]
    simp [lookup_addGrad_ne _ _ _ _ hab, data_addGrad, lookup_addGrad_ne s a v _ hav]

theorem backStep_pow (s : Store) (v a : Nat) (k : ℤ)
    (hop : (lookup s v).op = Op.pow k) (hprev : (lookup s v).prev = [a])
    (ha : a < s.length) :
    (lookup (backStep s v) a).grad =
      (lookup s a).grad + (k : ℚ) * (lookup s a).data ^ (k - 1) * (lookup s v).grad := by
  unfold backStep
  rw [hop, hprev]
  rw [lookup_addGrad_self s a _ ha]

theorem lookup_append_self (s : Store) (nd : Node) :
    lookup (s ++ [nd]) s.length = nd := by
  simp [lookup, List.getD_eq_getElem?_getD]

/-! ### Concrete test graphs used by the claims -/

/-- Leaves `a = 2`, `b = -3`, `out = a * b` (ids 0, 1, 2). -/
def mulTest : Store × Nat :=
  mulv [⟨2, 0, [], Op.leaf⟩, ⟨-3, 0, [], Op.leaf⟩] 0 (Operand.node 1)

/-- Leaf `a = 2`, `out = a ** 3` (ids 0, 1). -/
def powTest : Store × Nat := powNum [⟨2, 0, [], Op.leaf⟩] 0 3

/-- Leaves `a = 1`, `b = 1`, `out = a + b` (ids 0, 1, 2): a depth-one graph. -/
def pairTest : Store × Nat :=
  addv [⟨1, 0, [], Op.leaf⟩, ⟨1, 0, [], Op.leaf⟩] 0 (Operand.node 1)

/-- Leaves `a = 1`, `b = 1`, `c = a + b`, leaf `d = 1`, `out = c + d`
(ids 0, 1, 2, 3, 4): a depth-two chain. -/
def chainTest : Store × Nat :=
  addv (mkValue (addv [⟨1, 0, [], Op.leaf⟩, ⟨1, 0, [], Op.leaf⟩] 0
      (Operand.node 1)).1 1 [] Op.leaf).1 2 (Operand.node 3)

/-- Store of `mulTest` after the root gradient has been seeded to 1. -/
def mulBackStore : Store :=
  [⟨2, 0, [], Op.leaf⟩, ⟨-3, 0, [], Op.leaf⟩, ⟨-6, 1, [0, 1], Op.mul⟩]

/-- Store of `powTest` after the root gradient has been seeded to 1. -/
def powBackStore : Store := [⟨2, 0, [], Op.leaf⟩, ⟨8, 1, [0], Op.pow 3⟩]

/-! ### Claim theorems -/

/-- C1: for a leaf `a` (of arbitrary value `x`) with `b = a*a`, `c = a*a` and
`out = b + c`, running `backward` on `out` leaves `a.grad = 4 * a.data`: the
two paths through `a` in the diamond both contribute and are summed. -/
theorem diamond_gradient_sums_paths (x : ℚ) :
    (lookup
      (backward
        (addv (mulv (mulv [⟨x, 0, [], Op.leaf⟩] 0 (Operand.node 0)).1 0 (Operand.node 0)).1
            1 (Operand.node 2)).1 3) 0).grad =
      4 * (lookup [⟨x, 0, [], Op.leaf⟩] 0).data := by
  simp [backward, buildTopo, children, dfs, lookup, mkValue, mulv, addv, coerceOperand,
    backStep, addGrad, setGrad, Node.default]
  ring

/-- C3: the forward value and the backward contribution of `*` and `**` match
the local-derivative table: `out = a*b` has `out.data = a.data * b.data` and
its `_backward` adds `b.data * out.grad` to `a.grad` and `a.data * out.grad`
to `b.grad`; `out = a**k` has `out.data = a.data ^ k` and its `_backward`
adds `k * a.data^(k-1) * out.grad` to `a.grad`.  Concretely, for leaves
`a = 2`, `b = -3`, `out = a*b`, backward gives `a.grad = -3`, `b.grad = 2`,
`out.grad = 1`, and for leaf `a = 2`, `out = a**3`, backward gives
`a.grad = 12`. -/
theorem local_derivative_table
    (s : Store) (v a b : Nat)
    (hop : (lookup s v).op = Op.mul) (hprev : (lookup s v).prev = [a, b])
    (hab : a ≠ b) (hav : a ≠ v) (ha : a < s.length) (hb : b < s.length)
    (s2 : Store) (w c : Nat) (k : ℤ)
    (hop2 : (lookup s2 w).op = Op.pow k) (hprev2 : (lookup s2 w).prev = [c])
    (hc : c < s2.length) :
    (lookup (mulv s a (Operand.node b)).1 (mulv s a (Operand.node b)).2).data =
      (lookup s a).data * (lookup s b).data ∧
    (lookup (powNum s2 c k).1 (powNum s2 c k).2).data = (lookup s2 c).data ^ k ∧
    (lookup (backStep s v) a).grad =
      (lookup s a).grad + (lookup s b).data * (lookup s v).grad ∧
    (lookup (backStep s v) b).grad =
      (lookup s b).grad + (lookup s a).data * (lookup s v).grad ∧
    (lookup (backStep s2 w) c).grad =
      (lookup s2 c).grad + (k : ℚ) * (lookup s2 c).data ^ (k - 1) * (lookup s2 w).grad ∧
    (lookup (backward mulTest.1 mulTest.2) 0).grad = -3 ∧
    (lookup (backward mulTest.1 mulTest.2) 1).grad = 2 ∧
    (lookup (backward mulTest.1 mulTest.2) 2).grad = 1 ∧
    (lookup powTest.1 powTest.2).data = 8 ∧
    (lookup (backward powTest.1 powTest.2) 0).grad = 12 ∧
    (lookup (backward powTest.1 powTest.2) 1).grad = 1 := by
  obtain ⟨h1, h2⟩ := backStep_mul s v a b hop hprev hab hav ha hb
  refine ⟨?_, ?_, h1, h2, backStep_pow s2 w c k hop2 hprev2 hc, ?_⟩
  · simp [mulv, coerceOperand, mkValue, lookup_append_self]
  · simp [powNum, mkValue, lookup_append_self]
  · norm_num [mulTest, powTest, mulv, powNum, coerceOperand, mkValue, backward, buildTopo,
      children, dfs, lookup, backStep, addGrad, setGrad, Node.default]

theorem local_derivative_table_witness :
    ((lookup mulBackStore 2).op = Op.mul ∧ (lookup mulBackStore 2).prev = [0, 1] ∧
      (0 : Nat) ≠ 1 ∧ (0 : Nat) ≠ 2 ∧ 0 < mulBackStore.length ∧ 1 < mulBackStore.length ∧
      (lookup powBackStore 1).op = Op.pow 3 ∧ (lookup powBackStore 1).prev = [0] ∧
      0 < powBackStore.length) ∧
    ((lookup (mulv mulBackStore 0 (Operand.node 1)).1
        (mulv mulBackStore 0 (Operand.node 1)).2).data =
      (lookup mulBackStore 0).data * (lookup mulBackStore 1).data ∧
    (lookup (powNum powBackStore 0 3).1 (powNum powBackStore 0 3).2).data =
      (lookup powBackStore 0).data ^ (3 : ℤ) ∧
    (lookup (backStep mulBackStore 2) 0).grad =
      (lookup mulBackStore 0).grad + (lookup mulBackStore 1).data * (lookup mulBackStore 2).grad ∧
    (lookup (backStep mulBackStore 2) 1).grad =
      (lookup mulBackStore 1).grad + (lookup mulBackStore 0).data * (lookup mulBackStore 2).grad ∧
    (lookup (backStep powBackStore 1) 0).grad =
      (lookup powBackStore 0).grad +
        ((3 : ℤ) : ℚ) * (lookup powBackStore 0).data ^ ((3 : ℤ) - 1) * (lookup powBackStore 1).grad ∧
    (lookup (backward mulTest.1 mulTest.2) 0).grad = -3 ∧
    (lookup (backward mulTest.1 mulTest.2) 1).grad = 2 ∧
    (lookup (backward mulTest.1 mulTest.2) 2).grad = 1 ∧
    (lookup powTest.1 powTest.2).data = 8 ∧
    (lookup (backward powTest.1 powTest.2) 0).grad = 12 ∧
    (lookup (backward powTest.1 powTest.2) 1).grad = 1) :=
  ⟨⟨by decide, by decide, by decide, by decide, by decide, by decide, by decide, by decide,
      by decide⟩,
    local_derivative_table mulBackStore 2 0 1 (by decide) (by decide) (by decide) (by decide)
      (by decide) (by decide) powBackStore 1 0 3 (by decide) (by decide) (by decide)⟩

/-- C4 counterexample: on the depth-two chain `out = (a + b) + d`, the first
backward pass gives `a.grad = 1` but a second pass (without resetting
gradients) gives `a.grad = 3`, not the doubled value `2`: the second pass's
contribution to `c = a + b` lands before `c._backward` fires, so `a` receives
`c`'s inflated gradient. -/
theorem second_pass_not_double_cx :
    (lookup (backward chainTest.1 chainTest.2) 0).grad = 1 ∧
    (lookup (backward (backward chainTest.1 chainTest.2) chainTest.2) 0).grad = 3 ∧
    ¬((lookup (backward (backward chainTest.1 chainTest.2) chainTest.2) 0).grad =
        2 * (lookup (backward chainTest.1 chainTest.2) 0).grad) := by
  norm_num [chainTest, addv, coerceOperand, mkValue, backward, buildTopo, children, dfs,
    lookup, backStep, addGrad, setGrad, Node.default]

/-- C4 amended: a second backward pass on the same unchanged graph reseeds the
root to 1 and re-accumulates additively onto the non-reset gradients; the
contributions of the second pass are computed from the already-inflated
downstream gradients, so the root's direct leaf operands are doubled but
deeper nodes can gain more than double.  On `out = a + b`: second pass gives
`a.grad = b.grad = 2`, `out.grad = 1`.  On the chain `out = (a + b) + d`:
first pass gives grads `[1, 1, 1, 1, 1]`, second pass `[3, 3, 2, 2, 1]`. -/
theorem second_pass_reaccumulates :
    (lookup (backward (backward pairTest.1 pairTest.2) pairTest.2) 0).grad = 2 ∧
    (lookup (backward (backward pairTest.1 pairTest.2) pairTest.2) 1).grad = 2 ∧
    (lookup (backward (backward pairTest.1 pairTest.2) pairTest.2) 2).grad = 1 ∧
    (lookup (backward chainTest.1 chainTest.2) 0).grad = 1 ∧
    (lookup (backward chainTest.1 chainTest.2) 1).grad = 1 ∧
    (lookup (backward chainTest.1 chainTest.2) 2).grad = 1 ∧
    (lookup (backward chainTest.1 chainTest.2) 3).grad = 1 ∧
    (lookup (backward chainTest.1 chainTest.2) 4).grad = 1 ∧
    (lookup (backward (backward chainTest.1 chainTest.2) chainTest.2) 0).grad = 3 ∧
    (lookup (backward (backward chainTest.1 chainTest.2) chainTest.2) 1).grad = 3 ∧
    (lookup (backward (backward chainTest.1 chainTest.2) chainTest.2) 2).grad = 2 ∧
    (lookup (backward (backward chainTest.1 chainTest.2) chainTest.2) 3).grad = 2 ∧
    (lookup (backward (backward chainTest.1 chainTest.2) chainTest.2) 4).grad = 1 := by
  norm_num [pairTest, chainTest, addv, coerceOperand, mkValue, backward, buildTopo, children,
    dfs, lookup, backStep, addGrad, setGrad, Node.default]

/-- C5 counterexample: `backward` does not overwrite pre-existing non-root
gradients.  On `out = a + b`, after one backward pass `a.grad = 1`; a second
pass yields `a.grad = 2`, not the same value again — had the pass overwritten
pre-existing gradients, both passes would leave the same state. -/
theorem backward_overwrite_cx :
    (lookup (backward pairTest.1 pairTest.2) 0).grad = 1 ∧
    (lookup (backward (backward pairTest.1 pairTest.2) pairTest.2) 0).grad = 2 ∧
    ¬((lookup (backward (backward pairTest.1 pairTest.2) pairTest.2) 0).grad =
        (lookup (backward pairTest.1 pairTest.2) 0).grad) := by
  norm_num [pairTest, addv, coerceOperand, mkValue, backward, buildTopo, children, dfs,
    lookup, backStep, addGrad, setGrad, Node.default]

/-- C5 amended: the backward pass mutates the gradient of every node reachable
from the root, but only the root's gradient is overwritten (reseeded to 1,
discarding its pre-existing value `gc`); every other reachable node's
pre-existing gradient is accumulated onto with `+=`.  Shown for
`out = a + b` with arbitrary data and arbitrary pre-existing gradients. -/
theorem backward_seeds_root_accumulates_rest (xa xb ga gb gc : ℚ) :
    (lookup (backward [⟨xa, ga, [], Op.leaf⟩, ⟨xb, gb, [], Op.leaf⟩,
        ⟨xa + xb, gc, [0, 1], Op.add⟩] 2) 0).grad = ga + 1 ∧
    (lookup (backward [⟨xa, ga, [], Op.leaf⟩, ⟨xb, gb, [], Op.leaf⟩,
        ⟨xa + xb, gc, [0, 1], Op.add⟩] 2) 1).grad = gb + 1 ∧
    (lookup (backward [⟨xa, ga, [], Op.leaf⟩, ⟨xb, gb, [], Op.leaf⟩,
        ⟨xa + xb, gc, [0, 1], Op.add⟩] 2) 2).grad = 1 := by
  refine ⟨?_, ?_, ?_⟩ <;>
    simp [backward, buildTopo, children, dfs, lookup, backStep, addGrad, setGrad,
      Node.default]

/-- C6: ReLU gates value and gradient by the sign of the input: for leaf
`a = -5`, `out = a.relu()` has `out.data = 0` and backward leaves
`a.grad = 0`; for leaf `a = 5`, `out.data = 5` and backward leaves
`a.grad = 1`. -/
theorem relu_gates_value_and_gradient :
    (lookup (reluv [⟨-5, 0, [], Op.leaf⟩] 0).1 (reluv [⟨-5, 0, [], Op.leaf⟩] 0).2).data = 0 ∧
    (lookup (backward (reluv [⟨-5, 0, [], Op.leaf⟩] 0).1 (reluv [⟨-5, 0, [], Op.leaf⟩] 0).2)
        0).grad = 0 ∧
    (lookup (reluv [⟨5, 0, [], Op.leaf⟩] 0).1 (reluv [⟨5, 0, [], Op.leaf⟩] 0).2).data = 5 ∧
    (lookup (backward (reluv [⟨5, 0, [], Op.leaf⟩] 0).1 (reluv [⟨5, 0, [], Op.leaf⟩] 0).2)
        0).grad = 1 := by
  norm_num [reluv, mkValue, backward, buildTopo, children, dfs, lookup, backStep,
    addGrad, setGrad, Node.default]

/-! ### Derived operators: spec-side compositions (from the words of the
spec, for comparison with the source definitions) -/

/-- The spec's composition for negate: `negate(a) = a * (-1)`. -/
def specNegate (s : Store) (a : Nat) : Store × Nat := mulv s a (Operand.const (-1))

/-- The spec's composition for subtract: `subtract(a, b) = a + negate(b)`. -/
def specSubtract (s : Store) (a b : Nat) : Store × Nat :=
  let sn := specNegate s b
  addv sn.1 a (Operand.node sn.2)

/-- The spec's composition for divide: `divide(a, b) = a * power(b, -1)`. -/
def specDivide (s : Store) (a b : Nat) : Store × Nat :=
  let sp := powNum s b (-1)
  mulv sp.1 a (Operand.node sp.2)

/-- A single-leaf store (one `Value(y)`). -/
def oneLeaf (y : ℚ) : Store := [⟨y, 0, [], Op.leaf⟩]

/-- A two-leaf store (`Value(y)` at id 0, `Value(x)` at id 1). -/
def twoLeaf (y x : ℚ) : Store := [⟨y, 0, [], Op.leaf⟩, ⟨x, 0, [], Op.leaf⟩]

/-- The forward value of the node an operation returned. -/
def outData (p : Store × Nat) : ℚ := (lookup p.1 p.2).data

/-- The gradient of node `i` after running `backward` from the node an
operation returned. -/
def gradAfterBackward (p : Store × Nat) (i : Nat) : ℚ := (lookup (backward p.1 p.2) i).grad

/-- C8: every derived operator is the composition of primitives the spec
gives.  `__neg__`, `__sub__` and `__truediv__` on node operands build exactly
`a * (-1)`, `a + negate(b)` and `a * power(b, -1)` (store-level equality);
the reverse variants (`__radd__`, `__rsub__`, `__rmul__`, `__rtruediv__`) and
the numeric-operand forms produce the same forward value and, after a
backward pass, the same gradient on the shared operand as the corresponding
forward composition applied to the auto-wrapped number. -/
theorem derived_ops_are_compositions (s : Store) (a b : Nat) (x y : ℚ) :
    negv s a = specNegate s a ∧
    subv s a (Operand.node b) = specSubtract s a b ∧
    truedivv s a (Operand.node b) = specDivide s a b ∧
    outData (raddv (oneLeaf y) 0 x) = outData (addv (twoLeaf y x) 1 (Operand.node 0)) ∧
    gradAfterBackward (raddv (oneLeaf y) 0 x) 0 =
      gradAfterBackward (addv (twoLeaf y x) 1 (Operand.node 0)) 0 ∧
    outData (rsubv (oneLeaf y) 0 x) = outData (specSubtract (twoLeaf y x) 1 0) ∧
    gradAfterBackward (rsubv (oneLeaf y) 0 x) 0 =
      gradAfterBackward (specSubtract (twoLeaf y x) 1 0) 0 ∧
    outData (rmulv (oneLeaf y) 0 x) = outData (mulv (twoLeaf y x) 1 (Operand.node 0)) ∧
    gradAfterBackward (rmulv (oneLeaf y) 0 x) 0 =
      gradAfterBackward (mulv (twoLeaf y x) 1 (Operand.node 0)) 0 ∧
    outData (rtruedivv (oneLeaf y) 0 x) = outData (specDivide (twoLeaf y x) 1 0) ∧
    gradAfterBackward (rtruedivv (oneLeaf y) 0 x) 0 =
      gradAfterBackward (specDivide (twoLeaf y x) 1 0) 0 ∧
    outData (subv (oneLeaf y) 0 (Operand.const x)) = outData (specSubtract (twoLeaf y x) 0 1) ∧
    gradAfterBackward (subv (oneLeaf y) 0 (Operand.const x)) 0 =
      gradAfterBackward (specSubtract (twoLeaf y x) 0 1) 0 ∧
    outData (truedivv (oneLeaf y) 0 (Operand.const x)) = outData (specDivide (twoLeaf y x) 0 1) ∧
    gradAfterBackward (truedivv (oneLeaf y) 0 (Operand.const x)) 0 =
      gradAfterBackward (specDivide (twoLeaf y x) 0 1) 0 := by
  refine ⟨rfl, rfl, rfl, ?_, ?_, ?_, ?_, ?_, ?_, ?_, ?_, ?_, ?_, ?_, ?_⟩ <;>
  · simp [outData, gradAfterBackward, oneLeaf, twoLeaf, raddv, rsubv, rmulv, rtruedivv,
      subv, truedivv, negv, specNegate, specSubtract, specDivide, powNum, addv, mulv,
      coerceOperand, mkValue, backward, buildTopo, children, dfs, lookup, backStep,
      addGrad, setGrad, Node.default, zpow_neg_one]
    try ring

/-! ### The engine's failure modes (C7) -/

/-- Python's numeric power `a ** k` on int/float operands, embedded in exact
arithmetic: raising 0 to a negative power raises `ZeroDivisionError`. -/
def pyPow (a : ℚ) (k : ℤ) : Except String ℚ :=
  if a = 0 ∧ k < 0 then Except.error "ZeroDivisionError" else Except.ok (a ^ k)

/-- `Value.__pow__` with its full failure behaviour: the isinstance assert
rejects non-numeric exponents, and the forward `self.data**other` raises
`ZeroDivisionError` when the base is 0 and the exponent negative.  `powNum`
is its restriction to the error-free region. -/
def powFull (s : Store) (a : Nat) : PowArg → Except String (Store × Nat)
  | PowArg.num k =>
      match pyPow (lookup s a).data k with
      | Except.ok d => Except.ok (mkValue s d [a] (Op.pow k))
      | Except.error e => Except.error e
  | PowArg.node _ => Except.error "only supporting int/float powers for now"
  | PowArg.nonNumeric => Except.error "only supporting int/float powers for now"

/-- `Value.__truediv__` with its full failure behaviour: `other**-1` raises
`ZeroDivisionError` when `other` is 0, whether `other` is a raw number or a
node.  `truedivv` is its restriction to the error-free region. -/
def truedivFull (s : Store) (a : Nat) : Operand → Except String (Store × Nat)
  | Operand.const x =>
      match pyPow x (-1) with
      | Except.ok d => Except.ok (mulv s a (Operand.const d))
      | Except.error e => Except.error e
  | Operand.node b =>
      match powFull s b (PowArg.num (-1)) with
      | Except.ok sp => Except.ok (mulv sp.1 a (Operand.node sp.2))
      | Except.error e => Except.error e

/-- `Value.__rtruediv__` with its full failure behaviour: `self**-1` raises
`ZeroDivisionError` when `self.data` is 0. -/
def rtruedivFull (s : Store) (a : Nat) (x : ℚ) : Except String (Store × Nat) :=
  match powFull s a (PowArg.num (-1)) with
  | Except.ok sp => Except.ok (mulv sp.1 sp.2 (Operand.const x))
  | Except.error e => Except.error e

/-- `v._backward()` with its full failure behaviour: the power rule computes
`self.data**(other-1)`, which raises `ZeroDivisionError` when the base is 0
and `other - 1` is negative; every other rule is error-free.  `backStep` is
its restriction to the error-free region. -/
def backStepFull (s : Store) (v : Nat) : Except String Store :=
  match (lookup s v).op, (lookup s v).prev with
  | Op.add, [a, b] =>
      let s1 := addGrad s a (lookup s v).grad
      Except.ok (addGrad s1 b (lookup s1 v).grad)
  | Op.mul, [a, b] =>
      let s1 := addGrad s a ((lookup s b).data * (lookup s v).grad)
      Except.ok (addGrad s1 b ((lookup s1 a).data * (lookup s1 v).grad))
  | Op.pow k, [a] =>
      match pyPow (lookup s a).data (k - 1) with
      | Except.ok p => Except.ok (addGrad s a ((k : ℚ) * p * (lookup s v).grad))
      | Except.error e => Except.error e
  | Op.relu, [a] =>
      Except.ok (addGrad s a ((if (lookup s v).data > 0 then 1 else 0) * (lookup s v).grad))
  | _, _ => Except.ok s

/-- `Value.backward` with its full failure behaviour: the reverse walk stops
at the first `_backward()` that raises. -/
def backwardFull (s : Store) (root : Nat) : Except String Store :=
  (buildTopo s root).reverse.foldlM (fun t v => backStepFull t v) (setGrad s root 1)

theorem backStepFull_not_pow (s : Store) (v : Nat)
    (hnp : ∀ k, (lookup s v).op ≠ Op.pow k) :
    backStepFull s v = Except.ok (backStep s v) := by
  unfold backStepFull backStep
  cases hop2 : (lookup s v).op
  case pow k => exact absurd hop2 (hnp k)
  all_goals (simp only [hop2]; try rfl)
  all_goals (rcases h2 : (lookup s v).prev with _ | ⟨a1, _ | ⟨a2, _ | tl⟩⟩ <;>
    simp only [h2])

/-- C7 counterexample: the power-assert is not the engine's only failure
mode, and power with a numeric exponent does not always succeed: on numeric
inputs, `Value(0) ** -1` raises `ZeroDivisionError` in the forward of
`__pow__`, `Value(5) / Value(0)` raises inside `other**-1`, and running
`backward` on `Value(0) ** 0` raises in the power rule's
`self.data**(other-1)`. -/
theorem numeric_zero_division_cx :
    powFull (oneLeaf 0) 0 (PowArg.num (-1)) = Except.error "ZeroDivisionError" ∧
    truedivFull (twoLeaf 5 0) 0 (Operand.node 1) = Except.error "ZeroDivisionError" ∧
    backwardFull (powNum (oneLeaf 0) 0 0).1 (powNum (oneLeaf 0) 0 0).2 =
      Except.error "ZeroDivisionError" ∧
    ¬(powFull (oneLeaf 0) 0 (PowArg.num (-1)) = Except.ok (powNum (oneLeaf 0) 0 (-1))) :=
  ⟨rfl, rfl, rfl, fun h => Except.noConfusion h⟩

/-- C7 amended: `__pow__` fails with the exponent-type assertion exactly when
the exponent is not a plain numeric literal, except that a numeric exponent
additionally fails with `ZeroDivisionError` when the base value is 0 and the
exponent is negative; divide (built on `power(-1)`) fails with
`ZeroDivisionError` exactly when the divisor's value is 0, and the backward
rule of a power node fails with `ZeroDivisionError` exactly when its base is
0 and the exponent minus one is negative.  Add, multiply, relu and the
backward rules of all non-power nodes never signal an error for numeric
inputs, and on the error-free region the failing operations agree with the
total builders used by the other claims. -/
theorem failure_modes (s : Store) (a b i v : Nat) (e : PowArg) (k : ℤ) (x : ℚ)
    (hnp : ∀ k2, (lookup s v).op ≠ Op.pow k2)
    (s2 : Store) (w c : Nat) (k3 : ℤ)
    (hop : (lookup s2 w).op = Op.pow k3) (hprev : (lookup s2 w).prev = [c]) :
    ((∃ r, powFull s a e = Except.ok r) ↔
      ∃ j, e = PowArg.num j ∧ ¬((lookup s a).data = 0 ∧ j < 0)) ∧
    powFull s a (PowArg.num k) =
      (if (lookup s a).data = 0 ∧ k < 0 then Except.error "ZeroDivisionError"
       else Except.ok (powNum s a k)) ∧
    powFull s a (PowArg.node i) = Except.error "only supporting int/float powers for now" ∧
    powFull s a PowArg.nonNumeric = Except.error "only supporting int/float powers for now" ∧
    ((∃ r, truedivFull s a (Operand.node b) = Except.ok r) ↔ (lookup s b).data ≠ 0) ∧
    ((lookup s b).data ≠ 0 →
      truedivFull s a (Operand.node b) = Except.ok (truedivv s a (Operand.node b))) ∧
    ((∃ r, rtruedivFull s a x = Except.ok r) ↔ (lookup s a).data ≠ 0) ∧
    (∃ t, backStepFull s v = Except.ok t) ∧
    ((∃ t, backStepFull s2 w = Except.ok t) ↔ ¬((lookup s2 c).data = 0 ∧ k3 - 1 < 0)) ∧
    (¬((lookup s2 c).data = 0 ∧ k3 - 1 < 0) →
      backStepFull s2 w = Except.ok (backStep s2 w)) := by
  have hpow : ∀ (t : Store) (p : Nat) (j : ℤ), powFull t p (PowArg.num j) =
      (if (lookup t p).data = 0 ∧ j < 0 then Except.error "ZeroDivisionError"
       else Except.ok (powNum t p j)) := by
    intro t p j
    simp only [powFull, pyPow]
    by_cases h : (lookup t p).data = 0 ∧ j < 0
    · rw [if_pos h, if_pos h]
    · rw [if_neg h, if_neg h]
      rfl
  have htd : truedivFull s a (Operand.node b) =
      (match powFull s b (PowArg.num (-1)) with
       | Except.ok sp => Except.ok (mulv sp.1 a (Operand.node sp.2))
       | Except.error e2 => Except.error e2) := rfl
  have hrtd : rtruedivFull s a x =
      (match powFull s a (PowArg.num (-1)) with
       | Except.ok sp => Except.ok (mulv sp.1 sp.2 (Operand.const x))
       | Except.error e2 => Except.error e2) := rfl
  have hstep : backStepFull s2 w =
      (if (lookup s2 c).data = 0 ∧ k3 - 1 < 0 then Except.error "ZeroDivisionError"
       else Except.ok (addGrad s2 c
         ((k3 : ℚ) * (lookup s2 c).data ^ (k3 - 1) * (lookup s2 w).grad))) := by
    unfold backStepFull pyPow
    simp only [hop, hprev]
    by_cases h : (lookup s2 c).data = 0 ∧ k3 - 1 < 0
    · rw [if_pos h, if_pos h]
    · rw [if_neg h, if_neg h]
  refine ⟨?_, hpow s a k, rfl, rfl, ?_, ?_, ?_, ?_, ?_, ?_⟩
  · cases e with
    | num j =>
        rw [hpow s a j]
        constructor
        · intro hex
          refine ⟨j, rfl, ?_⟩
          intro hcon
          rw [if_pos hcon] at hex
          obtain ⟨r, hr⟩ := hex
          cases hr
        · rintro ⟨j2, hj2, hno⟩
          injection hj2 with hj
          subst hj
          rw [if_neg hno]
          exact ⟨_, rfl⟩
    | node j =>
        exact iff_of_false (fun hex => Except.noConfusion hex.choose_spec)
          (fun hex => PowArg.noConfusion hex.choose_spec.1)
    | nonNumeric =>
        exact iff_of_false (fun hex => Except.noConfusion hex.choose_spec)
          (fun hex => PowArg.noConfusion hex.choose_spec.1)
  · rw [htd, hpow s b (-1)]
    by_cases hb : (lookup s b).data = 0
    · rw [if_pos ⟨hb, by omega⟩]
      exact iff_of_false (fun hex => Except.noConfusion hex.choose_spec) (fun hne => hne hb)
    · rw [if_neg (fun hcon => hb hcon.1)]
      exact iff_of_true ⟨_, rfl⟩ hb
  · intro hb
    rw [htd, hpow s b (-1), if_neg (fun hcon => hb hcon.1)]
    rfl
  · rw [hrtd, hpow s a (-1)]
    by_cases ha : (lookup s a).data = 0
    · rw [if_pos ⟨ha, by omega⟩]
      exact iff_of_false (fun hex => Except.noConfusion hex.choose_spec) (fun hne => hne ha)
    · rw [if_neg (fun hcon => ha hcon.1)]
      exact iff_of_true ⟨_, rfl⟩ ha
  · exact ⟨backStep s v, backStepFull_not_pow s v hnp⟩
  · rw [hstep]
    by_cases h : (lookup s2 c).data = 0 ∧ k3 - 1 < 0
    · rw [if_pos h]
      exact iff_of_false (fun hex => Except.noConfusion hex.choose_spec) (not_not_intro h)
    · rw [if_neg h]
      exact iff_of_true ⟨_, rfl⟩ h
  · intro h
    rw [hstep, if_neg h]
    unfold backStep
    simp only [hop, hprev]

theorem failure_modes_witness :
    ((∀ k2 : ℤ, (lookup (twoLeaf 5 0) 0).op ≠ Op.pow k2) ∧
      (lookup powBackStore 1).op = Op.pow 3 ∧ (lookup powBackStore 1).prev = [0]) ∧
    (((∃ r, powFull (twoLeaf 5 0) 0 (PowArg.num (-1)) = Except.ok r) ↔
      ∃ j, PowArg.num (-1) = PowArg.num j ∧ ¬((lookup (twoLeaf 5 0) 0).data = 0 ∧ j < 0)) ∧
    powFull (twoLeaf 5 0) 0 (PowArg.num (-1)) =
      (if (lookup (twoLeaf 5 0) 0).data = 0 ∧ (-1 : ℤ) < 0 then
        Except.error "ZeroDivisionError"
       else Except.ok (powNum (twoLeaf 5 0) 0 (-1))) ∧
    powFull (twoLeaf 5 0) 0 (PowArg.node 0) =
      Except.error "only supporting int/float powers for now" ∧
    powFull (twoLeaf 5 0) 0 PowArg.nonNumeric =
      Except.error "only supporting int/float powers for now" ∧
    ((∃ r, truedivFull (twoLeaf 5 0) 0 (Operand.node 1) = Except.ok r) ↔
      (lookup (twoLeaf 5 0) 1).data ≠ 0) ∧
    ((lookup (twoLeaf 5 0) 1).data ≠ 0 →
      truedivFull (twoLeaf 5 0) 0 (Operand.node 1) =
        Except.ok (truedivv (twoLeaf 5 0) 0 (Operand.node 1))) ∧
    ((∃ r, rtruedivFull (twoLeaf 5 0) 0 3 = Except.ok r) ↔
      (lookup (twoLeaf 5 0) 0).data ≠ 0) ∧
    (∃ t, backStepFull (twoLeaf 5 0) 0 = Except.ok t) ∧
    ((∃ t, backStepFull powBackStore 1 = Except.ok t) ↔
      ¬((lookup powBackStore 0).data = 0 ∧ (3 : ℤ) - 1 < 0)) ∧
    (¬((lookup powBackStore 0).data = 0 ∧ (3 : ℤ) - 1 < 0) →
      backStepFull powBackStore 1 = Except.ok (backStep powBackStore 1))) :=
  ⟨⟨fun k2 h => Op.noConfusion h, by decide, by decide⟩,
    failure_modes (twoLeaf 5 0) 0 1 0 0 (PowArg.num (-1)) (-1) 3
      (fun k2 h => Op.noConfusion h) powBackStore 1 0 3 (by decide) (by decide)⟩

/-! ### Construction is non-mutating: builders only append -/

/-- `s2` is `s` with some nodes appended (no existing node touched). -/
def StoreExtends (s s2 : Store) : Prop := ∃ t, s2 = s ++ t

theorem StoreExtends.refl_self (s : Store) : StoreExtends s s := ⟨[], by simp⟩

theorem StoreExtends.trans_chain {s1 s2 s3 : Store} (h1 : StoreExtends s1 s2)
    (h2 : StoreExtends s2 s3) : StoreExtends s1 s3 := by
  obtain ⟨t1, rfl⟩ := h1
  obtain ⟨t2, rfl⟩ := h2
  exact ⟨t1 ++ t2, by simp⟩

theorem StoreExtends.lookup_eq {s s2 : Store} (h : StoreExtends s s2) (i : Nat)
    (hi : i < s.length) : lookup s2 i = lookup s i := by
  obtain ⟨t, rfl⟩ := h
  exact lookup_append_left s t i hi

theorem mkValue_extends (s : Store) (d : ℚ) (p : List Nat) (op : Op) :
    StoreExtends s (mkValue s d p op).1 := ⟨[⟨d, 0, p, op⟩], rfl⟩

theorem coerce_extends (s : Store) (o : Operand) : StoreExtends s (coerceOperand s o).1 := by
  cases o with
  | node j => exact StoreExtends.refl_self s
  | const x => exact mkValue_extends s x [] Op.leaf

theorem addv_extends (s : Store) (a : Nat) (o : Operand) : StoreExtends s (addv s a o).1 :=
  (coerce_extends s o).trans_chain (mkValue_extends _ _ _ _)

theorem mulv_extends (s : Store) (a : Nat) (o : Operand) : StoreExtends s (mulv s a o).1 :=
  (coerce_extends s o).trans_chain (mkValue_extends _ _ _ _)

theorem powNum_extends (s : Store) (a : Nat) (k : ℤ) : StoreExtends s (powNum s a k).1 :=
  mkValue_extends _ _ _ _

theorem reluv_extends (s : Store) (a : Nat) : StoreExtends s (reluv s a).1 :=
  mkValue_extends _ _ _ _

theorem negv_extends (s : Store) (a : Nat) : StoreExtends s (negv s a).1 :=
  mulv_extends s a (Operand.const (-1))

theorem subv_extends (s : Store) (a : Nat) (o : Operand) : StoreExtends s (subv s a o).1 := by
  cases o with
  | const x => exact addv_extends s a (Operand.const (-x))
  | node b => exact (negv_extends s b).trans_chain (addv_extends _ a _)

theorem raddv_extends (s : Store) (a : Nat) (x : ℚ) : StoreExtends s (raddv s a x).1 :=
  addv_extends s a (Operand.const x)

theorem rsubv_extends (s : Store) (a : Nat) (x : ℚ) : StoreExtends s (rsubv s a x).1 :=
  (negv_extends s a).trans_chain (addv_extends _ _ _)

theorem rmulv_extends (s : Store) (a : Nat) (x : ℚ) : StoreExtends s (rmulv s a x).1 :=
  mulv_extends s a (Operand.const x)

theorem truedivv_extends (s : Store) (a : Nat) (o : Operand) :
    StoreExtends s (truedivv s a o).1 := by
  cases o with
  | const x => exact mulv_extends s a (Operand.const x⁻¹)
  | node b => exact (powNum_extends s b (-1)).trans_chain (mulv_extends _ a _)

theorem rtruedivv_extends (s : Store) (a : Nat) (x : ℚ) :
    StoreExtends s (rtruedivv s a x).1 :=
  (powNum_extends s a (-1)).trans_chain (mulv_extends _ _ _)

theorem lookup_append_two (s : Store) (w nd : Node) :
    lookup (s ++ [w, nd]) (s.length + 1) = nd := by
  have h : (s ++ [w, nd])[s.length + 1]? = some nd := by
    rw [List.getElem?_append_right (by omega)]
    have h1 : s.length + 1 - s.length = 1 := by omega
    rw [h1]
    rfl
  simp [lookup, List.getD_eq_getElem?_getD, h]

/-- C9: constructing an operation node never mutates its operands: every
builder (`+`, `*`, `**`, `relu`, and the derived operators) leaves every
existing node of the store — `data` and `grad` included — unchanged; the
node it creates has gradient 0; and a raw numeric operand is auto-wrapped
into a fresh leaf with the same value, gradient 0 and no operands. -/
theorem builders_do_not_mutate (s : Store) (a : Nat) (o : Operand) (x : ℚ) (k : ℤ)
    (i : Nat) (hi : i < s.length) :
    lookup (addv s a o).1 i = lookup s i ∧
    lookup (mulv s a o).1 i = lookup s i ∧
    lookup (powNum s a k).1 i = lookup s i ∧
    lookup (reluv s a).1 i = lookup s i ∧
    lookup (negv s a).1 i = lookup s i ∧
    lookup (subv s a o).1 i = lookup s i ∧
    lookup (raddv s a x).1 i = lookup s i ∧
    lookup (rsubv s a x).1 i = lookup s i ∧
    lookup (rmulv s a x).1 i = lookup s i ∧
    lookup (truedivv s a o).1 i = lookup s i ∧
    lookup (rtruedivv s a x).1 i = lookup s i ∧
    (lookup (addv s a o).1 (addv s a o).2).grad = 0 ∧
    (lookup (mulv s a o).1 (mulv s a o).2).grad = 0 ∧
    (lookup (powNum s a k).1 (powNum s a k).2).grad = 0 ∧
    (lookup (reluv s a).1 (reluv s a).2).grad = 0 ∧
    coerceOperand s (Operand.const x) = (s ++ [⟨x, 0, [], Op.leaf⟩], s.length) :=
  ⟨(addv_extends s a o).lookup_eq i hi, (mulv_extends s a o).lookup_eq i hi,
    (powNum_extends s a k).lookup_eq i hi, (reluv_extends s a).lookup_eq i hi,
    (negv_extends s a).lookup_eq i hi, (subv_extends s a o).lookup_eq i hi,
    (raddv_extends s a x).lookup_eq i hi, (rsubv_extends s a x).lookup_eq i hi,
    (rmulv_extends s a x).lookup_eq i hi, (truedivv_extends s a o).lookup_eq i hi,
    (rtruedivv_extends s a x).lookup_eq i hi,
    by cases o <;> simp [addv, coerceOperand, mkValue, lookup_append_self, lookup_append_two],
    by cases o <;> simp [mulv, coerceOperand, mkValue, lookup_append_self, lookup_append_two],
    by simp [powNum, mkValue, lookup_append_self],
    by simp [reluv, mkValue, lookup_append_self],
    rfl⟩

theorem builders_do_not_mutate_witness :
    0 < (oneLeaf 7).length ∧
    (lookup (addv (oneLeaf 7) 0 (Operand.const 2)).1 0 = lookup (oneLeaf 7) 0 ∧
    lookup (mulv (oneLeaf 7) 0 (Operand.const 2)).1 0 = lookup (oneLeaf 7) 0 ∧
    lookup (powNum (oneLeaf 7) 0 3).1 0 = lookup (oneLeaf 7) 0 ∧
    lookup (reluv (oneLeaf 7) 0).1 0 = lookup (oneLeaf 7) 0 ∧
    lookup (negv (oneLeaf 7) 0).1 0 = lookup (oneLeaf 7) 0 ∧
    lookup (subv (oneLeaf 7) 0 (Operand.const 2)).1 0 = lookup (oneLeaf 7) 0 ∧
    lookup (raddv (oneLeaf 7) 0 2).1 0 = lookup (oneLeaf 7) 0 ∧
    lookup (rsubv (oneLeaf 7) 0 2).1 0 = lookup (oneLeaf 7) 0 ∧
    lookup (rmulv (oneLeaf 7) 0 2).1 0 = lookup (oneLeaf 7) 0 ∧
    lookup (truedivv (oneLeaf 7) 0 (Operand.const 2)).1 0 = lookup (oneLeaf 7) 0 ∧
    lookup (rtruedivv (oneLeaf 7) 0 2).1 0 = lookup (oneLeaf 7) 0 ∧
    (lookup (addv (oneLeaf 7) 0 (Operand.const 2)).1
      (addv (oneLeaf 7) 0 (Operand.const 2)).2).grad = 0 ∧
    (lookup (mulv (oneLeaf 7) 0 (Operand.const 2)).1
      (mulv (oneLeaf 7) 0 (Operand.const 2)).2).grad = 0 ∧
    (lookup (powNum (oneLeaf 7) 0 3).1 (powNum (oneLeaf 7) 0 3).2).grad = 0 ∧
    (lookup (reluv (oneLeaf 7) 0).1 (reluv (oneLeaf 7) 0).2).grad = 0 ∧
    coerceOperand (oneLeaf 7) (Operand.const 2) =
      (oneLeaf 7 ++ [⟨2, 0, [], Op.leaf⟩], (oneLeaf 7).length)) :=
  ⟨by decide, builders_do_not_mutate (oneLeaf 7) 0 (Operand.const 2) 2 3 0 (by decide)⟩

/-! ### nn.py: Neuron and Layer -/

/-- A `Neuron`: the ids of its weight leaves, its bias leaf, and the
nonlinearity flag. -/
structure Neuron where
  w : List Nat
  b : Nat
  nonlin : Bool

/-- `Neuron.__call__`: `act = sum((wi*xi for wi,xi in zip(self.w, x)), self.b)`
— each product node is built, then added onto the running total starting from
the bias — followed by `act.relu()` if `nonlin`. -/
def neuronCall (s : Store) (n : Neuron) (x : List Nat) : Store × Nat :=
  let act := (n.w.zip x).foldl
    (fun acc p =>
      let st := mulv acc.1 p.1 (Operand.node p.2)
      addv st.1 acc.2 (Operand.node st.2))
    (s, n.b)
  if n.nonlin then reluv act.1 act.2 else act

/-- A `Layer`: an ordered list of neurons. -/
structure Layer where
  neurons : List Neuron

/-- `Layer.__call__`: `out = [n(x) for n in self.neurons]`, then
`out[0] if len(out) == 1 else out`. -/
def layerCall (s : Store) (L : Layer) (x : List Nat) : Store × (Nat ⊕ List Nat) :=
  let outs := L.neurons.foldl
    (fun acc n =>
      let st := neuronCall acc.1 n x
      (st.1, acc.2 ++ [st.2]))
    (s, ([] : List Nat))
  if outs.2.length = 1 then (outs.1, Sum.inl (outs.2.getD 0 0))
  else (outs.1, Sum.inr outs.2)

theorem layerFold_length (x : List Nat) : ∀ (ns : List Neuron) (s : Store) (l : List Nat),
    ((ns.foldl (fun acc n =>
        let st := neuronCall acc.1 n x
        (st.1, acc.2 ++ [st.2])) (s, l)).2).length = l.length + ns.length := by
  intro ns
  induction ns with
  | nil => intro s l; simp
  | cons n ns ih =>
      intro s l
      rw [List.foldl_cons, ih]
      simp
      omega

/-- C10: `Layer.__call__` collapses the output list exactly when the layer has
one neuron: it returns a single node iff `len(self.neurons) = 1`, and
otherwise a list with one output per neuron. -/
theorem layer_output_shape (s : Store) (L : Layer) (x : List Nat) :
    ((∃ o, (layerCall s L x).2 = Sum.inl o) ↔ L.neurons.length = 1) ∧
    ((∃ os, (layerCall s L x).2 = Sum.inr os ∧ os.length = L.neurons.length) ↔
      L.neurons.length ≠ 1) := by
  have hlen := layerFold_length x L.neurons s []
  simp only [List.length_nil, Nat.zero_add] at hlen
  unfold layerCall
  by_cases h : (L.neurons.foldl (fun acc n =>
      let st := neuronCall acc.1 n x
      (st.1, acc.2 ++ [st.2])) (s, ([] : List Nat))).2.length = 1
  · rw [if_pos h]
    constructor
    · simp only [Sum.inl.injEq]
      constructor
      · intro _; rw [← hlen]; exact h
      · intro _; exact ⟨_, rfl⟩
    · constructor
      · rintro ⟨os, hos, _⟩; cases hos
      · intro hne; exfalso; rw [← hlen] at hne; exact hne h
  · rw [if_neg h]
    constructor
    · constructor
      · rintro ⟨o, ho⟩; cases ho
      · intro h1; exfalso; rw [← hlen] at h1; exact h h1
    · constructor
      · intro _; rw [← hlen]; exact h
      · intro _; exact ⟨_, rfl, hlen⟩

/-! ### Topological completeness of the depth-first traversal -/

/-- `x` is reachable from `v` along operand edges of the graph functional
`g`. -/
inductive Reaches (g : Nat → List Nat) : Nat → Nat → Prop
  | refl (v : Nat) : Reaches g v v
  | step {v c x : Nat} : c ∈ g v → Reaches g c x → Reaches g v x

/-- The invariant shape of the `topo` list: it grows by appending a node only
once all the node's operands are already present. -/
inductive TopoOK (g : Nat → List Nat) : List Nat → Prop
  | nil : TopoOK g []
  | snoc {t : List Nat} {v : Nat} : TopoOK g t → (∀ c ∈ g v, c ∈ t) → TopoOK g (t ++ [v])

theorem TopoOK.closed {g : Nat → List Nat} {t : List Nat} (h : TopoOK g t) :
    ∀ x ∈ t, ∀ c ∈ g x, c ∈ t := by
  induction h with
  | nil => simp
  | snoc ht hv ih =>
      intro x hx c hc
      rcases List.mem_append.1 hx with hx | hx
      · exact List.mem_append_left _ (ih x hx c hc)
      · have hxv := List.mem_singleton.1 hx
        subst hxv
        exact List.mem_append_left _ (hv c hc)

theorem TopoOK.mem_of_reaches {g : Nat → List Nat} {t : List Nat} (h : TopoOK g t)
    {v x : Nat} (hr : Reaches g v x) (hv : v ∈ t) : x ∈ t := by
  induction hr with
  | refl => exact hv
  | step hc _ ih => exact ih (h.closed _ hv _ hc)

theorem Reaches.rank_le {g : Nat → List Nat} {r : Nat → Nat}
    (hg : ∀ v, ∀ c ∈ g v, r c < r v) {a b : Nat} (h : Reaches g a b) : r b ≤ r a := by
  induction h with
  | refl => exact Nat.le_refl _
  | step hc _ ih => exact ih.trans (Nat.le_of_lt (hg _ _ hc))

theorem TopoOK.operands_precede {g : Nat → List Nat} {t : List Nat} (h : TopoOK g t) :
    ∀ j, ∀ hj : j < t.length, ∀ c ∈ g (t.get ⟨j, hj⟩), c ∈ t.take j := by
  induction h with
  | nil => intro j hj; simp at hj
  | snoc ht hv ih =>
      rename_i t v
      intro j hj c hc
      by_cases hjt : j < t.length
      · have hget : (t ++ [v]).get ⟨j, hj⟩ = t.get ⟨j, hjt⟩ := List.get_append j hjt
        rw [hget] at hc
        rw [List.take_append_of_le_length (Nat.le_of_lt hjt)]
        exact ih j hjt c hc
      · have hjv : j = t.length := by
          simp only [List.length_append, List.length_singleton] at hj
          omega
        subst hjv
        have hget : (t ++ [v]).get ⟨t.length, hj⟩ = v := by
          rw [List.get_append_right _ _ (by simp)] <;> simp
        rw [hget] at hc
        rw [List.take_append_of_le_length (Nat.le_refl _), List.take_length]
        exact hv c hc

/-- Invariant of the traversal state `(visited, topo)`: `topo` has no
duplicates, is contained in `visited`, and lists operands before users. -/
def DfsInv (g : Nat → List Nat) (st : List Nat × List Nat) : Prop :=
  st.2.Nodup ∧ (∀ x ∈ st.2, x ∈ st.1) ∧ TopoOK g st.2

/-- Relation between a traversal state and a later one: the invariant holds,
`visited` only grows, `topo` only grows by appending, and no new "gray" node
(visited but not yet output) is left behind. -/
def DfsStep (g : Nat → List Nat) (st st2 : List Nat × List Nat) : Prop :=
  DfsInv g st2 ∧ (∀ x ∈ st.1, x ∈ st2.1) ∧ (∃ d, st2.2 = st.2 ++ d) ∧
  (∀ x ∈ st2.1, x ∉ st2.2 → x ∈ st.1 ∧ x ∉ st.2)

theorem DfsStep.refl_state (g : Nat → List Nat) (st : List Nat × List Nat) (h : DfsInv g st) :
    DfsStep g st st :=
  ⟨h, fun _ hx => hx, ⟨[], by simp⟩, fun _ hx hnx => ⟨hx, hnx⟩⟩

theorem DfsStep.trans_states {g : Nat → List Nat} {st1 st2 st3 : List Nat × List Nat}
    (h1 : DfsStep g st1 st2) (h2 : DfsStep g st2 st3) : DfsStep g st1 st3 := by
  obtain ⟨_, hm2, ⟨d1, hd1⟩, hg2⟩ := h1
  obtain ⟨hi3, hm3, ⟨d2, hd2⟩, hg3⟩ := h2
  refine ⟨hi3, fun x hx => hm3 _ (hm2 _ hx),
    ⟨d1 ++ d2, by rw [hd2, hd1, List.append_assoc]⟩, ?_⟩
  intro x hx hnx
  have h := hg3 x hx hnx
  exact hg2 x h.1 h.2

/-- Full specification of one `build_topo(v)` call from state `st`. -/
def DfsOut (g : Nat → List Nat) (v : Nat) (st st2 : List Nat × List Nat) : Prop :=
  DfsStep g st st2 ∧
  (∀ x ∈ st2.1, x ∈ st.1 ∨ Reaches g v x) ∧
  (∀ x ∈ st2.2, x ∈ st.2 ∨ Reaches g v x) ∧
  v ∈ st2.2

theorem foldl_dfs_spec (g : Nat → List Nat) (r : Nat → Nat) (fuel : Nat)
    (IH : ∀ v st, r v < fuel → DfsInv g st →
      (∀ x ∈ st.1, x ∉ st.2 → r v < r x) → DfsOut g v st (dfs g fuel v st)) :
    ∀ (cs : List Nat) (st : List Nat × List Nat), (∀ c ∈ cs, r c < fuel) → DfsInv g st →
      (∀ c ∈ cs, ∀ x ∈ st.1, x ∉ st.2 → r c < r x) →
      DfsStep g st (cs.foldl (fun t c => dfs g fuel c t) st) ∧
      (∀ x ∈ (cs.foldl (fun t c => dfs g fuel c t) st).1,
        x ∈ st.1 ∨ ∃ c ∈ cs, Reaches g c x) ∧
      (∀ x ∈ (cs.foldl (fun t c => dfs g fuel c t) st).2,
        x ∈ st.2 ∨ ∃ c ∈ cs, Reaches g c x) ∧
      (∀ c ∈ cs, c ∈ (cs.foldl (fun t c => dfs g fuel c t) st).2) := by
  intro cs
  induction cs with
  | nil =>
      intro st hf hinv hgray
      simp only [List.foldl_nil]
      exact ⟨DfsStep.refl_state g st hinv, fun x hx => Or.inl hx, fun x hx => Or.inl hx, by simp⟩
  | cons c cs ih =>
      intro st hf hinv hgray
      simp only [List.foldl_cons]
      obtain ⟨hstep1, hvis1, htopo1, hcmem⟩ :=
        IH c st (hf c (List.mem_cons_self c cs)) hinv (hgray c (List.mem_cons_self c cs))
      obtain ⟨hstep2, hvis2, htopo2, hmem2⟩ :=
        ih (dfs g fuel c st) (fun c2 hc2 => hf c2 (List.mem_cons_of_mem _ hc2)) hstep1.1
          (fun c2 hc2 x hx hnx => by
            have h := hstep1.2.2.2 x hx hnx
            exact hgray c2 (List.mem_cons_of_mem _ hc2) x h.1 h.2)
      refine ⟨hstep1.trans_states hstep2, ?_, ?_, ?_⟩
      · intro x hx
        rcases hvis2 x hx with hx1 | ⟨c2, hc2, hr⟩
        · rcases hvis1 x hx1 with hx0 | hr
          · exact Or.inl hx0
          · exact Or.inr ⟨c, List.mem_cons_self c cs, hr⟩
        · exact Or.inr ⟨c2, List.mem_cons_of_mem _ hc2, hr⟩
      · intro x hx
        rcases htopo2 x hx with hx1 | ⟨c2, hc2, hr⟩
        · rcases htopo1 x hx1 with hx0 | hr
          · exact Or.inl hx0
          · exact Or.inr ⟨c, List.mem_cons_self c cs, hr⟩
        · exact Or.inr ⟨c2, List.mem_cons_of_mem _ hc2, hr⟩
      · intro c2 hc2
        rcases List.mem_cons.1 hc2 with hc2 | hc2
        · subst hc2
          obtain ⟨d, hd⟩ := hstep2.2.2.1
          rw [hd]
          exact List.mem_append_left _ hcmem
        · exact hmem2 c2 hc2

theorem dfs_spec (g : Nat → List Nat) (r : Nat → Nat)
    (hg : ∀ v, ∀ c ∈ g v, r c < r v) :
    ∀ (fuel : Nat) (v : Nat) (st : List Nat × List Nat), r v < fuel → DfsInv g st →
      (∀ x ∈ st.1, x ∉ st.2 → r v < r x) → DfsOut g v st (dfs g fuel v st) := by
  intro fuel
  induction fuel with
  | zero => intro v st hf; omega
  | succ fuel ih =>
      intro v st hf hinv hgray
      simp only [dfs]
      by_cases hv : v ∈ st.1
      · rw [if_pos hv]
        refine ⟨DfsStep.refl_state g st hinv, fun x hx => Or.inl hx, fun x hx => Or.inl hx, ?_⟩
        by_contra hnv
        exact absurd (hgray v hv hnv) (Nat.lt_irrefl _)
      · rw [if_neg hv]
        have hinv0 : DfsInv g (v :: st.1, st.2) :=
          ⟨hinv.1, fun x hx => List.mem_cons_of_mem _ (hinv.2.1 x hx), hinv.2.2⟩
        have hfc : ∀ c ∈ g v, r c < fuel :=
          fun c hc => Nat.lt_of_lt_of_le (hg v c hc) (Nat.lt_succ_iff.1 hf)
        have hgray0 : ∀ c ∈ g v, ∀ x ∈ (v :: st.1, st.2).1, x ∉ (v :: st.1, st.2).2 →
            r c < r x := by
          intro c hc x hx hnx
          rcases List.mem_cons.1 hx with hxv | hx1
          · subst hxv
            exact hg _ c hc
          · exact (hg v c hc).trans (hgray x hx1 hnx)
        obtain ⟨hstep1, hvis1, htopo1, hcmem⟩ :=
          foldl_dfs_spec g r fuel ih (g v) (v :: st.1, st.2) hfc hinv0 hgray0
        have hvnotin : v ∉ ((g v).foldl (fun t c => dfs g fuel c t) (v :: st.1, st.2)).2 := by
          intro hvin
          rcases htopo1 v hvin with hv2 | ⟨c, hc, hr⟩
          · exact hv (hinv.2.1 v hv2)
          · exact Nat.lt_irrefl _ (Nat.lt_of_le_of_lt (Reaches.rank_le hg hr) (hg v c hc))
        refine ⟨⟨⟨?_, ?_, ?_⟩, ?_, ?_, ?_⟩, ?_, ?_, ?_⟩
        · rw [List.nodup_append]
          refine ⟨hstep1.1.1, List.nodup_singleton v, ?_⟩
          intro a ha hav
          rw [List.mem_singleton] at hav
          subst hav
          exact hvnotin ha
        · intro x hx
          rcases List.mem_append.1 hx with hx1 | hx1
          · exact hstep1.1.2.1 x hx1
          · rw [List.mem_singleton] at hx1
            subst hx1
            exact hstep1.2.1 x (List.mem_cons_self x _)
        · exact hstep1.1.2.2.snoc hcmem
        · intro x hx
          exact hstep1.2.1 x (List.mem_cons_of_mem _ hx)
        · obtain ⟨d, hd⟩ := hstep1.2.2.1
          exact ⟨d ++ [v], by rw [hd, List.append_assoc]⟩
        · intro x hx hnx
          have hx2 : x ∉ ((g v).foldl (fun t c => dfs g fuel c t) (v :: st.1, st.2)).2 :=
            fun h => hnx (List.mem_append_left _ h)
          have hxv : x ≠ v := by
            intro h
            subst h
            exact hnx (List.mem_append_right _ (List.mem_singleton.2 rfl))
          have h := hstep1.2.2.2 x hx hx2
          rcases List.mem_cons.1 h.1 with h1 | h1
          · exact absurd h1 hxv
          · exact ⟨h1, h.2⟩
        · intro x hx
          rcases hvis1 x hx with hx1 | ⟨c, hc, hr⟩
          · rcases List.mem_cons.1 hx1 with rfl | hx0
            · exact Or.inr (Reaches.refl x)
            · exact Or.inl hx0
          · exact Or.inr (Reaches.step hc hr)
        · intro x hx
          rcases List.mem_append.1 hx with hx1 | hx1
          · rcases htopo1 x hx1 with hx0 | ⟨c, hc, hr⟩
            · exact Or.inl hx0
            · exact Or.inr (Reaches.step hc hr)
          · rw [List.mem_singleton] at hx1
            subst hx1
            exact Or.inr (Reaches.refl x)
        · exact List.mem_append_right _ (List.mem_singleton.2 rfl)

/-- C2: for any acyclic graph (witnessed by a rank function decreasing on
operand edges), the ordered sequence `build_topo` records from the root
contains each node reachable from the root exactly once (no duplicates, and
membership is equivalent to reachability), and every node's operands appear
strictly before the node in the sequence; `buildTopo` of the engine is
exactly this traversal of a store's operand graph. -/
theorem traversal_topological_completeness
    (g : Nat → List Nat) (r : Nat → Nat) (hg : ∀ v, ∀ c ∈ g v, r c < r v)
    (root fuel : Nat) (hf : r root < fuel) :
    (dfs g fuel root ([], [])).2.Nodup ∧
    (∀ x, x ∈ (dfs g fuel root ([], [])).2 ↔ Reaches g root x) ∧
    (∀ j, ∀ hj : j < (dfs g fuel root ([], [])).2.length,
      ∀ c ∈ g ((dfs g fuel root ([], [])).2.get ⟨j, hj⟩),
        c ∈ (dfs g fuel root ([], [])).2.take j) ∧
    (∀ (s : Store) (rt : Nat), buildTopo s rt = (dfs (children s) s.length rt ([], [])).2) := by
  have h := dfs_spec g r hg fuel root ([], []) hf
    ⟨List.nodup_nil, by simp, TopoOK.nil⟩ (by simp)
  refine ⟨h.1.1.1, ?_, h.1.1.2.2.operands_precede, fun s rt => rfl⟩
  intro x
  constructor
  · intro hx
    rcases h.2.2.1 x hx with h0 | hr
    · simp at h0
    · exact hr
  · intro hr
    exact h.1.1.2.2.mem_of_reaches hr h.2.2.2

/-- A finite graph given as a list of operand lists (node `v`'s operands are
the `v`-th entry; nodes outside the list have none). -/
def gList (l : List (List Nat)) (v : Nat) : List Nat := l.getD v []

theorem gList_ranked (l : List (List Nat)) (h : ∀ i < l.length, ∀ c ∈ l.getD i [], c < i) :
    ∀ v, ∀ c ∈ gList l v, c < v := by
  intro v c hc
  by_cases hv : v < l.length
  · exact h v hv c hc
  · rw [gList, List.getD_eq_default] at hc
    · simp at hc
    · omega

/-- The diamond graph: node 3 = node 1 + node 2, nodes 1 and 2 both
multiply node 0 by itself. -/
def diamondG : List (List Nat) := [[], [0, 0], [0, 0], [1, 2]]

theorem traversal_topological_completeness_witness :
    ((∀ v, ∀ c ∈ gList diamondG v, c < v) ∧ 3 < 4) ∧
    ((dfs (gList diamondG) 4 3 ([], [])).2.Nodup ∧
    (∀ x, x ∈ (dfs (gList diamondG) 4 3 ([], [])).2 ↔ Reaches (gList diamondG) 3 x) ∧
    (∀ j, ∀ hj : j < (dfs (gList diamondG) 4 3 ([], [])).2.length,
      ∀ c ∈ gList diamondG ((dfs (gList diamondG) 4 3 ([], [])).2.get ⟨j, hj⟩),
        c ∈ (dfs (gList diamondG) 4 3 ([], [])).2.take j) ∧
    (∀ (s : Store) (rt : Nat), buildTopo s rt = (dfs (children s) s.length rt ([], [])).2)) :=
  ⟨⟨gList_ranked diamondG (by decide), by decide⟩,
    traversal_topological_completeness (gList diamondG) (fun i => i)
      (gList_ranked diamondG (by decide)) 3 4 (by decide)⟩
